import Mathlib

/-!
Shallow embedding of `src/jl_hiv/scripts/summarize_stats.py`.

The script loads a YAML list of records, each a mapping with keys
`region` (string), `qual` and `kmer` (numbers, coerced to float for
sorting), and `calls` (a list of mappings each holding a `percent`
field plus numeric count fields such as `correct`, `wrong`,
`partial`).  We model numbers as rationals, a call-entry dict as its
`percent` value plus an association list for the remaining fields, and
the per-bucket `collections.defaultdict(int)` as an association list
with lookup-default-0.  Python's `ZeroDivisionError` is modelled by an
`Option`-valued division; output is modelled as a list of structured
lines together with a flag recording whether the run crashed before
finishing.
-/

/-- One element of a record's `calls` list: the `percent` field plus
the remaining (generically named) numeric fields, as in the YAML dicts
read by `summarize_stats.py`. -/
structure CallEntry where
  percent : ℚ
  others : List (String × ℚ)
deriving DecidableEq

/-- One top-level YAML record: `region`, `qual`, `kmer`, `calls`. -/
structure StatRecord where
  region : String
  qual : ℚ
  kmer : ℚ
  calls : List CallEntry
deriving DecidableEq

/-- The key/value items of a call-entry dict, as iterated by
`d.iteritems()` in the inner loop of `summarize_counts`. -/
def entryItems (e : CallEntry) : List (String × ℚ) :=
  ("percent", e.percent) :: e.others

/-- The `vals = collections.defaultdict(int)` accumulator. -/
abbrev Vals := List (String × ℚ)

/-- Reading `vals[k]` from the defaultdict: stored value, defaulting to 0. -/
def valsGet : Vals → String → ℚ
  | [], _ => 0
  | (k2, v) :: rest, k => if k2 == k then v else valsGet rest k

/-- The statement `vals[k] += v` on the defaultdict. -/
def valsAdd : Vals → String → ℚ → Vals
  | [], k, v => [(k, v)]
  | (k2, v2) :: rest, k, v =>
    if k2 == k then (k2, v2 + v) :: rest
    else (k2, v2) :: valsAdd rest k v

/-- The expression `sum(vals.values())`. -/
def valsTotal (vals : Vals) : ℚ := (vals.map Prod.snd).sum

/-- The inner loop `for k, v in d.iteritems(): if k != "percent": vals[k] += v`. -/
def addItems (vals : Vals) : List (String × ℚ) → Vals
  | [] => vals
  | (k, v) :: rest =>
    if k == "percent" then addItems vals rest
    else addItems (valsAdd vals k v) rest

/-- The middle loop `for d in filter(select, info["calls"])`, accumulating
each matching entry's non-`percent` fields into `vals`. -/
def accumCalls (vals : Vals) : List CallEntry → Vals
  | [] => vals
  | e :: rest => accumCalls (addItems vals (entryItems e)) rest

/-- The accumulator built for one bucket: start from a fresh empty
defaultdict and fold the entries selected by `select`. -/
def bucketVals (select : CallEntry → Bool) (calls : List CallEntry) : Vals :=
  accumCalls [] (calls.filter select)

/-- First select of `summarize_counts`: `x["percent"] == 100.0`. -/
def sel_single (x : CallEntry) : Bool := decide (x.percent = 100)

/-- Second select: `x["percent"] < 100.0 and x["percent"] >= 5.0`. -/
def sel_mid (x : CallEntry) : Bool :=
  decide (x.percent < 100) && decide (x.percent ≥ 5)

/-- Third select: `x["percent"] < 5.0`. -/
def sel_low (x : CallEntry) : Bool := decide (x.percent < 5)

/-- The list `names = ["single", ">=5%", "<5%"]`. -/
def names : List String := ["single", ">=5%", "<5%"]

/-- The list `selects = [...]`, in the same order as `names`. -/
def selects : List (CallEntry → Bool) := [sel_single, sel_mid, sel_low]

/-- Python division, raising `ZeroDivisionError` on a zero denominator. -/
def pydiv (a b : ℚ) : Option ℚ := if b = 0 then none else some (a / b)

/-- The values printed for one bucket: its label, `right = vals["correct"]`,
`right / total * 100.0`, `wrong = vals["wrong"] + vals["partial"]`, and
`wrong / total * 100.0`. -/
structure BucketLine where
  name : String
  right : ℚ
  rightPct : ℚ
  wrong : ℚ
  wrongPct : ℚ
deriving DecidableEq

/-- The body of the `for name, select in zip(names, selects)` loop:
accumulate the bucket's totals and compute the printed quantities;
`none` models the `ZeroDivisionError` raised when `total` is 0. -/
def summarize_bucket (name : String) (select : CallEntry → Bool)
    (calls : List CallEntry) : Option BucketLine :=
  let vals := bucketVals select calls
  let total := valsTotal vals
  let right := valsGet vals "correct"
  let wrong := valsGet vals "wrong" + valsGet vals "partial"
  match pydiv right total, pydiv wrong total with
  | some rq, some wq => some ⟨name, right, rq * 100, wrong, wq * 100⟩
  | _, _ => none

/-- One printed line of the script's output. -/
inductive Line where
  | region (name : String)
  | header (qual kmer : ℚ)
  | bucket (name : String) (right : ℚ) (rightPct : ℚ) (wrong : ℚ) (wrongPct : ℚ)
deriving DecidableEq

/-- The `%.1f` format: the printed percentage, rounded to one decimal
place. -/
def round1 (x : ℚ) : ℚ := ((⌊x * 10 + 1 / 2⌋ : ℤ) : ℚ) / 10

/-- Rendering one bucket's print statement: label, `right` count, rounded
right percentage, `wrong` count, rounded wrong percentage. -/
def renderBucket (b : BucketLine) : Line :=
  Line.bucket b.name b.right (round1 b.rightPct) b.wrong (round1 b.wrongPct)

/-- The `for name, select in zip(names, selects)` loop: emit one line per
bucket; on a `ZeroDivisionError` stop and report the crash. -/
def summarize_buckets (calls : List CallEntry) :
    List (String × (CallEntry → Bool)) → List Line × Bool
  | [] => ([], false)
  | (name, select) :: rest =>
    match summarize_bucket name select calls with
    | none => ([], true)
    | some b =>
      let p := summarize_buckets calls rest
      (renderBucket b :: p.1, p.2)

/-- The function `summarize_counts(info)`: print the header line, then one line per
bucket (stopping with a crash on a zero total). -/
def summarize_counts (info : StatRecord) : List Line × Bool :=
  let p := summarize_buckets info.calls (names.zip selects)
  (Line.header info.qual info.kmer :: p.1, p.2)

/-- The sort key `(float(s["qual"]), float(s["kmer"]))` of a record. -/
def sortKey (s : StatRecord) : ℚ × ℚ := (s.qual, s.kmer)

/-- Lexicographic order on `(qual, kmer)` pairs: `qual` is the primary
key, `kmer` the tie-break. -/
def pairLE (a b : ℚ × ℚ) : Prop := a.1 < b.1 ∨ (a.1 = b.1 ∧ a.2 ≤ b.2)

instance : DecidableRel pairLE := fun a b => by
  unfold pairLE; infer_instance

/-- Record comparison used by `rstats.sort()`: tuples compare
lexicographically, so records compare by `(qual, kmer)` first. -/
def recLE (a b : StatRecord) : Prop := pairLE (sortKey a) (sortKey b)

instance : DecidableRel recLE := fun a b => by
  unfold recLE; infer_instance

instance : IsTotal StatRecord recLE := by
  constructor
  intro a b
  rcases lt_trichotomy (sortKey a).1 (sortKey b).1 with h | h | h
  · exact Or.inl (Or.inl h)
  · rcases le_total (sortKey a).2 (sortKey b).2 with h2 | h2
    · exact Or.inl (Or.inr ⟨h, h2⟩)
    · exact Or.inr (Or.inr ⟨h.symm, h2⟩)
  · exact Or.inr (Or.inl h)

instance : IsTrans StatRecord recLE := by
  constructor
  intro a b c hab hbc
  rcases hab with h1 | ⟨h1, h1k⟩
  · rcases hbc with h2 | ⟨h2, _⟩
    · exact Or.inl (lt_trans h1 h2)
    · exact Or.inl (h2 ▸ h1)
  · rcases hbc with h2 | ⟨h2, h2k⟩
    · exact Or.inl (h1 ▸ h2)
    · exact Or.inr ⟨h1.trans h2, h1k.trans h2k⟩

/-- The statements `rstats = [(float(s["qual"]), float(s["kmer"]), s) for s in stats if
s["region"] == region]; rstats.sort()`: filter to the region, then sort
by the `(qual, kmer)` key. -/
def region_stats (stats : List StatRecord) (region : String) : List StatRecord :=
  List.insertionSort recLE (stats.filter fun s => s.region == region)

/-- The `for (_, _, info) in rstats` loop: summarize each record in
sorted order, stopping when a record's summary crashes. -/
def process_records : List StatRecord → List Line × Bool
  | [] => ([], false)
  | r :: rest =>
    let p := summarize_counts r
    if p.2 then (p.1, true)
    else
      let q := process_records rest
      (p.1 ++ q.1, q.2)

/-- One iteration of the `for region in regions` loop: print the region
name, then the summaries of that region's sorted records. -/
def process_region (stats : List StatRecord) (region : String) : List Line × Bool :=
  let p := process_records (region_stats stats region)
  (Line.region region :: p.1, p.2)

/-- The list `regions = ["rt", "gag"]`, fixed inside `main`. -/
def regions : List String := ["rt", "gag"]

/-- The `for region in regions` loop of `main`, stopping at a crash. -/
def process_regions (stats : List StatRecord) : List String → List Line × Bool
  | [] => ([], false)
  | reg :: rest =>
    let p := process_region stats reg
    if p.2 then (p.1, true)
    else
      let q := process_regions stats rest
      (p.1 ++ q.1, q.2)

/-- The script's `main`, after YAML loading: the full printed output on
the parsed records, with the crash flag.  (Named `main_summarize` here
only because `main` is reserved in Lean.) -/
def main_summarize (stats : List StatRecord) : List Line × Bool :=
  process_regions stats regions

/-- The `(qual, kmer)` pairs of the header lines in an output fragment. -/
def headerPairs (ls : List Line) : List (ℚ × ℚ) :=
  ls.filterMap fun l =>
    match l with
    | Line.header q k => some (q, k)
    | _ => none

/-- The region names printed in an output fragment. -/
def regionLines (ls : List Line) : List String :=
  ls.filterMap fun l =>
    match l with
    | Line.region nm => some nm
    | _ => none

/-- Whether a line is a bucket line carrying the given label. -/
def lineIsBucketNamed (nm : String) : Line → Bool
  | Line.bucket n _ _ _ _ => n == nm
  | _ => false

/-- The total contribution of one call entry to `vals[k]`: the sum of the
entry's values stored under key `k`. -/
def fieldSum (e : CallEntry) (k : String) : ℚ :=
  (((entryItems e).filter fun kv => kv.1 == k).map Prod.snd).sum

/-- The total contribution of one call entry to `sum(vals.values())`: the
sum of all its non-`percent` field values. -/
def entrySumNP (e : CallEntry) : ℚ :=
  (((entryItems e).filter fun kv => !(kv.1 == "percent")).map Prod.snd).sum

/-- The sum of the `correct` field over a list of call entries. -/
def correctSum (calls : List CallEntry) : ℚ :=
  (calls.map fun e => fieldSum e "correct").sum

/-! ### A state-threaded reading of `summarize_counts`

The only heap object visible to `summarize_counts` is the record `info`
(and the dicts it contains).  The following definitions re-run the same
computation while explicitly threading that record through every step
that could mutate it, so that "no entry is mutated in place" becomes a
provable statement about the threaded state. -/

/-- The inner item loop, threading the record alongside the fresh `vals`. -/
def addItems_st (st : StatRecord × Vals) : List (String × ℚ) → StatRecord × Vals
  | [] => st
  | (k, v) :: rest =>
    if k == "percent" then addItems_st st rest
    else addItems_st (st.1, valsAdd st.2 k v) rest

/-- The entry loop, threading the record. -/
def accumCalls_st (st : StatRecord × Vals) : List CallEntry → StatRecord × Vals
  | [] => st
  | e :: rest => accumCalls_st (addItems_st st (entryItems e)) rest

/-- One bucket's accumulation with the record threaded through. -/
def bucketVals_st (select : CallEntry → Bool) (info : StatRecord) :
    StatRecord × Vals :=
  accumCalls_st (info, []) (info.calls.filter select)

/-- One bucket's summary with the record threaded through. -/
def summarize_bucket_st (name : String) (select : CallEntry → Bool)
    (info : StatRecord) : StatRecord × Option BucketLine :=
  let sv := bucketVals_st select info
  let total := valsTotal sv.2
  let right := valsGet sv.2 "correct"
  let wrong := valsGet sv.2 "wrong" + valsGet sv.2 "partial"
  (sv.1,
   match pydiv right total, pydiv wrong total with
   | some rq, some wq => some ⟨name, right, rq * 100, wrong, wq * 100⟩
   | _, _ => none)

/-- The bucket loop with the record threaded through. -/
def summarize_buckets_st (info : StatRecord) :
    List (String × (CallEntry → Bool)) → StatRecord × (List Line × Bool)
  | [] => (info, ([], false))
  | (name, select) :: rest =>
    let sb := summarize_bucket_st name select info
    match sb.2 with
    | none => (sb.1, ([], true))
    | some b =>
      let p := summarize_buckets_st sb.1 rest
      (p.1, (renderBucket b :: p.2.1, p.2.2))

/-- The function `summarize_counts` with the record threaded through every step. -/
def summarize_counts_st (info : StatRecord) : StatRecord × (List Line × Bool) :=
  let p := summarize_buckets_st info (names.zip selects)
  (p.1, (Line.header info.qual info.kmer :: p.2.1, p.2.2))

/-! ### Example inputs for concrete checks -/

/-- A call list covering all three buckets with nonzero totals. -/
def exCallsFull : List CallEntry :=
  [⟨100, [("correct", 10), ("wrong", 0), ("partial", 0)]⟩,
   ⟨50, [("correct", 3), ("wrong", 1), ("partial", 0)]⟩,
   ⟨3, [("correct", 1), ("wrong", 4), ("partial", 0)]⟩]

/-- A record whose three buckets all have entries and nonzero totals. -/
def exRecFull : StatRecord := ⟨"rt", 20, 31, exCallsFull⟩

/-- A record with no call entries at all, so every bucket is empty. -/
def exRecEmpty : StatRecord := ⟨"rt", 1, 1, []⟩

/-! ### Disequalities between the concrete string literals of the script

Rational arithmetic does not reduce inside the kernel, so concrete runs
are evaluated by `simp`/`norm_num`; these `simp` lemmas let it discharge
the string comparisons that appear in the accumulator. -/

@[simp] lemma ne_correct_percent : ("correct" : String) ≠ "percent" := by decide

@[simp] lemma ne_percent_correct : ("percent" : String) ≠ "correct" := by decide

@[simp] lemma ne_wrong_percent : ("wrong" : String) ≠ "percent" := by decide

@[simp] lemma ne_percent_wrong : ("percent" : String) ≠ "wrong" := by decide

@[simp] lemma ne_partial_percent : ("partial" : String) ≠ "percent" := by decide

@[simp] lemma ne_percent_partialstr : ("percent" : String) ≠ "partial" := by decide

@[simp] lemma ne_correct_wrong : ("correct" : String) ≠ "wrong" := by decide

@[simp] lemma ne_wrong_correct : ("wrong" : String) ≠ "correct" := by decide

@[simp] lemma ne_correct_partialstr : ("correct" : String) ≠ "partial" := by decide

@[simp] lemma ne_partial_correct : ("partial" : String) ≠ "correct" := by decide

@[simp] lemma ne_wrong_partialstr : ("wrong" : String) ≠ "partial" := by decide

@[simp] lemma ne_partial_wrong : ("partial" : String) ≠ "wrong" := by decide

@[simp] lemma ne_rt_gag : ("rt" : String) ≠ "gag" := by decide

@[simp] lemma ne_gag_rt : ("gag" : String) ≠ "rt" := by decide

/-! ### Lemmas about the defaultdict accumulator -/

lemma valsGet_valsAdd (vs : Vals) (k j : String) (v : ℚ) :
    valsGet (valsAdd vs k v) j = valsGet vs j + if k = j then v else 0 := by
  induction vs with
  | nil =>
    by_cases h : k = j <;> simp [valsAdd, valsGet, h]
  | cons kv rest ih =>
    obtain ⟨k2, v2⟩ := kv
    by_cases h2 : k2 = k
    · subst h2
      by_cases h : k2 = j <;> simp [valsAdd, valsGet, h]
    · by_cases h : k2 = j
      · have hkj : ¬(k = j) := fun he => h2 (by rw [h, he])
        have hjk : ¬(j = k) := fun he => hkj he.symm
        simp [valsAdd, valsGet, h2, h, hkj, hjk]
      · simp [valsAdd, valsGet, h2, h, ih]

lemma valsTotal_valsAdd (vs : Vals) (k : String) (v : ℚ) :
    valsTotal (valsAdd vs k v) = valsTotal vs + v := by
  induction vs with
  | nil => simp [valsAdd, valsTotal]
  | cons kv rest ih =>
    obtain ⟨k2, v2⟩ := kv
    by_cases h : k2 = k
    · simp [valsAdd, valsTotal, h]
      ring
    · have ih2 := ih
      simp only [valsTotal, List.map_cons, List.sum_cons] at ih2 ⊢
      simp [valsAdd, h, ih2]
      ring

lemma valsGet_addItems (items : List (String × ℚ)) (vs : Vals) (j : String)
    (hj : j ≠ "percent") :
    valsGet (addItems vs items) j =
      valsGet vs j + ((items.filter fun kv => kv.1 == j).map Prod.snd).sum := by
  induction items generalizing vs with
  | nil => simp [addItems]
  | cons kv rest ih =>
    obtain ⟨k, v⟩ := kv
    by_cases hk : k = "percent"
    · have hkj : ¬(k = j) := fun he => hj (by rw [← he, hk])
      have hpj : ¬("percent" = j) := fun he => hj he.symm
      simp [addItems, hk, hkj, hpj, ih]
    · by_cases hkj : k = j
      · subst hkj
        simp [addItems, hk, ih, valsGet_valsAdd]
        ring
      · simp [addItems, hk, hkj, ih, valsGet_valsAdd]

lemma valsGet_addItems_percent (items : List (String × ℚ)) (vs : Vals) :
    valsGet (addItems vs items) "percent" = valsGet vs "percent" := by
  induction items generalizing vs with
  | nil => simp [addItems]
  | cons kv rest ih =>
    obtain ⟨k, v⟩ := kv
    by_cases hk : k = "percent"
    · simp [addItems, hk, ih]
    · simp [addItems, hk, ih, valsGet_valsAdd]

lemma valsTotal_addItems (items : List (String × ℚ)) (vs : Vals) :
    valsTotal (addItems vs items) =
      valsTotal vs + ((items.filter fun kv => !(kv.1 == "percent")).map Prod.snd).sum := by
  induction items generalizing vs with
  | nil => simp [addItems]
  | cons kv rest ih =>
    obtain ⟨k, v⟩ := kv
    by_cases hk : k = "percent"
    · simp [addItems, hk, ih]
    · simp [addItems, hk, ih, valsTotal_valsAdd]
      ring

lemma valsGet_accumCalls (es : List CallEntry) (vs : Vals) (j : String)
    (hj : j ≠ "percent") :
    valsGet (accumCalls vs es) j = valsGet vs j + (es.map fun e => fieldSum e j).sum := by
  induction es generalizing vs with
  | nil => simp [accumCalls]
  | cons e rest ih =>
    simp [accumCalls, ih, valsGet_addItems _ _ _ hj, fieldSum]
    ring

lemma valsGet_accumCalls_percent (es : List CallEntry) (vs : Vals) :
    valsGet (accumCalls vs es) "percent" = valsGet vs "percent" := by
  induction es generalizing vs with
  | nil => simp [accumCalls]
  | cons e rest ih => simp [accumCalls, ih, valsGet_addItems_percent]

lemma valsTotal_accumCalls (es : List CallEntry) (vs : Vals) :
    valsTotal (accumCalls vs es) = valsTotal vs + (es.map entrySumNP).sum := by
  induction es generalizing vs with
  | nil => simp [accumCalls]
  | cons e rest ih =>
    simp [accumCalls, ih, valsTotal_addItems, entrySumNP]
    ring

lemma valsGet_bucketVals (select : CallEntry → Bool) (calls : List CallEntry)
    (j : String) (hj : j ≠ "percent") :
    valsGet (bucketVals select calls) j =
      ((calls.filter select).map fun e => fieldSum e j).sum := by
  simp [bucketVals, valsGet_accumCalls _ _ _ hj, valsGet]

lemma valsGet_bucketVals_percent (select : CallEntry → Bool) (calls : List CallEntry) :
    valsGet (bucketVals select calls) "percent" = 0 := by
  simp [bucketVals, valsGet_accumCalls_percent, valsGet]

lemma valsTotal_bucketVals (select : CallEntry → Bool) (calls : List CallEntry) :
    valsTotal (bucketVals select calls) = ((calls.filter select).map entrySumNP).sum := by
  unfold bucketVals
  rw [valsTotal_accumCalls]
  simp [valsTotal]

/-! ### The three bucket predicates partition `[0, 100]` -/

lemma bucket_exactly_one (e : CallEntry) (h0 : 0 ≤ e.percent) (h1 : e.percent ≤ 100) :
    (sel_single e = true ∧ sel_mid e = false ∧ sel_low e = false)
    ∨ (sel_single e = false ∧ sel_mid e = true ∧ sel_low e = false)
    ∨ (sel_single e = false ∧ sel_mid e = false ∧ sel_low e = true) := by
  by_cases h100 : e.percent = 100
  · left
    have : ¬(e.percent < 100) := by rw [h100]; exact lt_irrefl _
    have h5 : ¬(e.percent < 5) := by rw [h100]; exact not_lt.mpr (by norm_num)
    simp [sel_single, sel_mid, sel_low, h100, this, h5]
    norm_num
  · have hlt : e.percent < 100 := lt_of_le_of_ne h1 h100
    by_cases h5 : 5 ≤ e.percent
    · right; left
      have hn5 : ¬(e.percent < 5) := not_lt.mpr h5
      simp [sel_single, sel_mid, sel_low, h100, hlt, h5, hn5]
    · right; right
      have hl5 : e.percent < 5 := not_le.mp h5
      simp [sel_single, sel_mid, sel_low, h100, h5, hl5]

lemma filter_partition_sum (f : CallEntry → ℚ) (calls : List CallEntry)
    (h : ∀ e ∈ calls, 0 ≤ e.percent ∧ e.percent ≤ 100) :
    ((calls.filter sel_single).map f).sum + ((calls.filter sel_mid).map f).sum
      + ((calls.filter sel_low).map f).sum = (calls.map f).sum := by
  induction calls with
  | nil => simp
  | cons e rest ih =>
    have he := h e (List.mem_cons_self e rest)
    have hrest : ∀ x ∈ rest, 0 ≤ x.percent ∧ x.percent ≤ 100 :=
      fun x hx => h x (List.mem_cons_of_mem e hx)
    have ihr := ih hrest
    rcases bucket_exactly_one e he.1 he.2 with ⟨a, b, c⟩ | ⟨a, b, c⟩ | ⟨a, b, c⟩ <;>
      simp [List.filter_cons, a, b, c, ← ihr] <;> ring

/-! ### Claim theorems (first group) -/

/-- C2: for every call entry whose `percent` lies in `[0, 100]`, exactly
one of the three bucket predicates of `summarize_counts` holds:
`percent == 100.0`, or `5.0 <= percent < 100.0`, or `percent < 5.0`. -/
theorem claim_C2 (e : CallEntry) (h0 : 0 ≤ e.percent) (h1 : e.percent ≤ 100) :
    (sel_single e = true ∧ sel_mid e = false ∧ sel_low e = false)
    ∨ (sel_single e = false ∧ sel_mid e = true ∧ sel_low e = false)
    ∨ (sel_single e = false ∧ sel_mid e = false ∧ sel_low e = true) :=
  bucket_exactly_one e h0 h1

/-- Witness for C2 at the entry with `percent = 50`. -/
theorem claim_C2_witness :
    (sel_single ⟨50, []⟩ = true ∧ sel_mid ⟨50, []⟩ = false ∧ sel_low ⟨50, []⟩ = false)
    ∨ (sel_single ⟨50, []⟩ = false ∧ sel_mid ⟨50, []⟩ = true ∧ sel_low ⟨50, []⟩ = false)
    ∨ (sel_single ⟨50, []⟩ = false ∧ sel_mid ⟨50, []⟩ = false ∧ sel_low ⟨50, []⟩ = true) :=
  claim_C2 ⟨50, []⟩ (by norm_num) (by norm_num)

/-- C4: for every bucket, the accumulator sums every field except
`percent` generically over whatever field names are present; `right` is
the accumulated `correct`, the reported wrong count is the accumulated
`wrong` plus the accumulated `partial`, `total` is the sum of all
accumulated fields, and when `total` is nonzero the computed
percentages are `right / total * 100.0` and `wrong_total / total *
100.0`. -/
theorem claim_C4 (name : String) (select : CallEntry → Bool) (calls : List CallEntry) :
    (∀ k, k ≠ "percent" →
        valsGet (bucketVals select calls) k =
          ((calls.filter select).map fun e => fieldSum e k).sum)
    ∧ valsGet (bucketVals select calls) "percent" = 0
    ∧ valsTotal (bucketVals select calls) = ((calls.filter select).map entrySumNP).sum
    ∧ (valsTotal (bucketVals select calls) ≠ 0 →
        summarize_bucket name select calls =
          some ⟨name,
                valsGet (bucketVals select calls) "correct",
                valsGet (bucketVals select calls) "correct"
                  / valsTotal (bucketVals select calls) * 100,
                valsGet (bucketVals select calls) "wrong"
                  + valsGet (bucketVals select calls) "partial",
                (valsGet (bucketVals select calls) "wrong"
                  + valsGet (bucketVals select calls) "partial")
                  / valsTotal (bucketVals select calls) * 100⟩) := by
  refine ⟨fun k hk => valsGet_bucketVals select calls k hk,
          valsGet_bucketVals_percent select calls,
          valsTotal_bucketVals select calls,
          fun htot => ?_⟩
  unfold summarize_bucket
  simp [pydiv, htot]

/-- Witness for C4 on the concrete example call list and the `single`
bucket: the generic sum picks up the `wrong` field, and the emitted
bucket values are as computed. -/
theorem claim_C4_witness :
    ¬("wrong" = "percent")
    ∧ valsGet (bucketVals sel_single exCallsFull) "wrong" = 0
    ∧ valsTotal (bucketVals sel_single exCallsFull) ≠ 0
    ∧ summarize_bucket "single" sel_single exCallsFull =
        some ⟨"single", 10, 100, 0, 0⟩ := by
  have h := claim_C4 "single" sel_single exCallsFull
  have htot : valsTotal (bucketVals sel_single exCallsFull) ≠ 0 := by
    rw [h.2.2.1]
    norm_num [exCallsFull, List.filter_cons, sel_single, entrySumNP, entryItems]
  refine ⟨by decide, ?_, htot, ?_⟩
  · rw [h.1 "wrong" (by decide)]
    norm_num [exCallsFull, List.filter_cons, sel_single, fieldSum, entryItems]
  · rw [h.2.2.2 htot]
    rw [h.2.2.1, h.1 "correct" (by decide), h.1 "wrong" (by decide),
        h.1 "partial" (by decide)]
    norm_num [exCallsFull, List.filter_cons, sel_single, fieldSum, entrySumNP, entryItems]

/-- C6: when every call entry's `percent` is in `[0, 100]`, the `right`
counts accumulated by the three buckets add up to the sum of the
`correct` field over all of the record's call entries. -/
theorem claim_C6 (info : StatRecord)
    (h : ∀ e ∈ info.calls, 0 ≤ e.percent ∧ e.percent ≤ 100) :
    valsGet (bucketVals sel_single info.calls) "correct"
      + valsGet (bucketVals sel_mid info.calls) "correct"
      + valsGet (bucketVals sel_low info.calls) "correct"
      = correctSum info.calls := by
  rw [valsGet_bucketVals _ _ _ (by decide), valsGet_bucketVals _ _ _ (by decide),
      valsGet_bucketVals _ _ _ (by decide), correctSum]
  exact filter_partition_sum _ _ h

/-- Witness for C6 on the concrete example record: `10 + 3 + 1 = 14`. -/
theorem claim_C6_witness :
    (∀ e ∈ exRecFull.calls, 0 ≤ e.percent ∧ e.percent ≤ 100)
    ∧ valsGet (bucketVals sel_single exRecFull.calls) "correct"
        + valsGet (bucketVals sel_mid exRecFull.calls) "correct"
        + valsGet (bucketVals sel_low exRecFull.calls) "correct"
      = correctSum exRecFull.calls
    ∧ correctSum exRecFull.calls = 14 := by
  have hb : ∀ e ∈ exRecFull.calls, 0 ≤ e.percent ∧ e.percent ≤ 100 := by
    intro e he
    simp [exRecFull, exCallsFull] at he
    rcases he with h | h | h <;> rw [h] <;> norm_num
  refine ⟨hb, claim_C6 exRecFull hb, ?_⟩
  norm_num +decide [correctSum, exRecFull, exCallsFull, fieldSum, entryItems]

/-! ### Crash behaviour on an empty bucket -/

lemma summarize_bucket_empty (name : String) (select : CallEntry → Bool)
    (calls : List CallEntry) (h : calls.filter select = []) :
    valsTotal (bucketVals select calls) = 0 ∧ summarize_bucket name select calls = none := by
  have hv : bucketVals select calls = [] := by simp [bucketVals, h, accumCalls]
  refine ⟨by simp [hv, valsTotal], ?_⟩
  simp [summarize_bucket, hv, valsTotal, valsGet, pydiv]

lemma summarize_bucket_name (name : String) (select : CallEntry → Bool)
    (calls : List CallEntry) (b : BucketLine)
    (h : summarize_bucket name select calls = some b) : b.name = name := by
  simp only [summarize_bucket] at h
  split at h
  · cases h
    rfl
  · simp at h

lemma summarize_buckets_crash (calls : List CallEntry)
    (bs : List (String × (CallEntry → Bool))) (nm : String) (sel : CallEntry → Bool)
    (hnd : (bs.map Prod.fst).Nodup) (hmem : (nm, sel) ∈ bs)
    (hnone : summarize_bucket nm sel calls = none) :
    (summarize_buckets calls bs).2 = true
    ∧ ((summarize_buckets calls bs).1.all fun l => !(lineIsBucketNamed nm l)) = true := by
  induction bs with
  | nil => cases hmem
  | cons hd rest ih =>
    obtain ⟨nm0, sel0⟩ := hd
    rcases List.mem_cons.mp hmem with heq | hmem2
    · cases heq
      simp [summarize_buckets, hnone]
    · have hnm_mem : nm ∈ rest.map Prod.fst :=
        List.mem_map.mpr ⟨(nm, sel), hmem2, rfl⟩
      have hnd2 := List.nodup_cons.mp hnd
      have hne : nm0 ≠ nm := fun he => hnd2.1 (he ▸ hnm_mem)
      have ihr := ih hnd2.2 hmem2
      cases hb : summarize_bucket nm0 sel0 calls with
      | none => simp [summarize_buckets, hb]
      | some b =>
        have hbn : b.name = nm0 := summarize_bucket_name _ _ _ _ hb
        have h1 : lineIsBucketNamed nm (renderBucket b) = false := by
          simp [renderBucket, lineIsBucketNamed, hbn, hne]
        refine ⟨by simp [summarize_buckets, hb, ihr.1], ?_⟩
        simp [summarize_buckets, hb, h1, ihr.2]

/-! ### Header-pair extraction and sortedness -/

lemma headerPairs_append (l1 l2 : List Line) :
    headerPairs (l1 ++ l2) = headerPairs l1 ++ headerPairs l2 :=
  List.filterMap_append l1 l2 _

lemma headerPairs_summarize_buckets (calls : List CallEntry)
    (bs : List (String × (CallEntry → Bool))) :
    headerPairs (summarize_buckets calls bs).1 = [] := by
  induction bs with
  | nil => rfl
  | cons hd rest ih =>
    obtain ⟨nm0, sel0⟩ := hd
    cases hb : summarize_bucket nm0 sel0 calls with
    | none => simp [summarize_buckets, hb, headerPairs]
    | some b => simp [summarize_buckets, hb, headerPairs, renderBucket] at ih ⊢; exact ih

lemma headerPairs_summarize_counts (info : StatRecord) :
    headerPairs (summarize_counts info).1 = [sortKey info] := by
  have h := headerPairs_summarize_buckets info.calls (names.zip selects)
  simp [summarize_counts, headerPairs, sortKey] at h ⊢
  exact h

lemma headerPairs_process_records (rs : List StatRecord) :
    (headerPairs (process_records rs).1).Sublist (rs.map sortKey) := by
  induction rs with
  | nil => simp [process_records, headerPairs]
  | cons r rest ih =>
    cases hc : (summarize_counts r).2 with
    | true =>
      simp [process_records, hc, headerPairs_summarize_counts]
    | false =>
      simp [process_records, hc, headerPairs_append, headerPairs_summarize_counts, ih]

/-- C1: if one of the three confidence buckets selects no call entry of
a record, that bucket's accumulated total is 0, its percentage
computation raises the modelled `ZeroDivisionError`, the run is marked
crashed rather than continuing silently, and no line for that bucket is
printed. -/
theorem claim_C1 (info : StatRecord) (nm : String) (sel : CallEntry → Bool)
    (hmem : (nm, sel) ∈ names.zip selects)
    (hempty : info.calls.filter sel = []) :
    valsTotal (bucketVals sel info.calls) = 0
    ∧ summarize_bucket nm sel info.calls = none
    ∧ (summarize_counts info).2 = true
    ∧ ((summarize_counts info).1.all fun l => !(lineIsBucketNamed nm l)) = true := by
  obtain ⟨ht, hn⟩ := summarize_bucket_empty nm sel info.calls hempty
  have hnd : ((names.zip selects).map Prod.fst).Nodup := by
    simp [names, selects]
  have hcrash := summarize_buckets_crash info.calls (names.zip selects) nm sel hnd hmem hn
  refine ⟨ht, hn, ?_, ?_⟩
  · simp [summarize_counts, hcrash.1]
  · have hh : lineIsBucketNamed nm (Line.header info.qual info.kmer) = false := rfl
    simp only [summarize_counts, List.all_cons, hh, Bool.not_false, Bool.true_and]
    exact hcrash.2

/-- Witness for C1 on the record with no calls and the `single` bucket. -/
theorem claim_C1_witness :
    exRecEmpty.calls.filter sel_single = []
    ∧ valsTotal (bucketVals sel_single exRecEmpty.calls) = 0
    ∧ summarize_bucket "single" sel_single exRecEmpty.calls = none
    ∧ (summarize_counts exRecEmpty).2 = true
    ∧ ((summarize_counts exRecEmpty).1.all fun l => !(lineIsBucketNamed "single" l)) = true := by
  have h := claim_C1 exRecEmpty "single" sel_single (List.Mem.head _) rfl
  exact ⟨rfl, h.1, h.2.1, h.2.2.1, h.2.2.2⟩

/-- C3: for every region and every input record list, the `(qual, kmer)`
pairs of the emitted per-record header lines are lexicographically
non-decreasing (`qual` primary, `kmer` tie-break), whatever order the
records arrive in. -/
theorem claim_C3 (stats : List StatRecord) (region : String) :
    List.Pairwise pairLE (headerPairs (process_region stats region).1) := by
  have hsorted : List.Pairwise recLE (region_stats stats region) :=
    List.sorted_insertionSort recLE _
  have hmap : List.Pairwise pairLE ((region_stats stats region).map sortKey) := by
    rw [List.pairwise_map]
    exact hsorted
  have hsub := headerPairs_process_records (region_stats stats region)
  have hpr : headerPairs (process_region stats region).1
      = headerPairs (process_records (region_stats stats region)).1 := by
    simp [process_region, headerPairs]
  rw [hpr]
  exact hmap.sublist hsub

/-! ### Unmatched regions are silently excluded -/

lemma names_zip_selects :
    names.zip selects = [("single", sel_single), (">=5%", sel_mid), ("<5%", sel_low)] := rfl

lemma filter_region_drop (stats1 stats2 : List StatRecord) (s : StatRecord)
    (reg : String) (h : (s.region == reg) = false) :
    (stats1 ++ s :: stats2).filter (fun x => x.region == reg)
      = (stats1 ++ stats2).filter (fun x => x.region == reg) := by
  simp [List.filter_append, List.filter_cons, h]

lemma process_regions_drop (stats1 stats2 : List StatRecord) (s : StatRecord)
    (regs : List String) (h : ∀ reg ∈ regs, (s.region == reg) = false) :
    process_regions (stats1 ++ s :: stats2) regs
      = process_regions (stats1 ++ stats2) regs := by
  induction regs with
  | nil => rfl
  | cons reg rest ih =>
    have h1 := h reg (List.mem_cons_self _ _)
    have h3 : process_region (stats1 ++ s :: stats2) reg
        = process_region (stats1 ++ stats2) reg := by
      unfold process_region region_stats
      rw [filter_region_drop _ _ _ _ h1]
    have ihr := ih fun r hr => h r (List.mem_cons_of_mem _ hr)
    simp only [process_regions, h3, ihr]

/-- C5: a record whose `region` matches none of the configured labels
contributes nothing to the output: deleting it from the input leaves the
whole printed output (and the crash flag) unchanged. -/
theorem claim_C5 (stats1 stats2 : List StatRecord) (s : StatRecord)
    (h : s.region ∉ regions) :
    main_summarize (stats1 ++ s :: stats2) = main_summarize (stats1 ++ stats2) := by
  unfold main_summarize
  apply process_regions_drop
  intro reg hreg
  have hne : s.region ≠ reg := fun he => h (he ▸ hreg)
  exact beq_eq_false_iff_ne.mpr hne

/-- Witness for C5 with a record labelled `env`. -/
theorem claim_C5_witness :
    (StatRecord.region ⟨"env", 1, 1, []⟩ ∉ regions)
    ∧ main_summarize ([] ++ (⟨"env", 1, 1, []⟩ : StatRecord) :: [])
        = main_summarize ([] ++ []) :=
  ⟨by decide, claim_C5 [] [] ⟨"env", 1, 1, []⟩ (by decide)⟩

/-! ### Entries with `percent` above 100 fall into no bucket -/

lemma selects_false_of_gt100 (e : CallEntry) (h : 100 < e.percent) :
    sel_single e = false ∧ sel_mid e = false ∧ sel_low e = false := by
  have h1 : ¬(e.percent = 100) := fun he => absurd h (by rw [he]; exact lt_irrefl _)
  have h2 : ¬(e.percent < 100) := not_lt.mpr (le_of_lt h)
  have h3 : ¬(e.percent < 5) := not_lt.mpr (le_of_lt (lt_trans (by norm_num) h))
  simp [sel_single, sel_mid, sel_low, h1, h2, h3]

lemma summarize_buckets_congr (c1 c2 : List CallEntry)
    (bs : List (String × (CallEntry → Bool)))
    (h : ∀ nm sel, (nm, sel) ∈ bs →
      summarize_bucket nm sel c1 = summarize_bucket nm sel c2) :
    summarize_buckets c1 bs = summarize_buckets c2 bs := by
  induction bs with
  | nil => rfl
  | cons hd rest ih =>
    obtain ⟨nm0, sel0⟩ := hd
    have h0 := h nm0 sel0 (List.mem_cons_self _ _)
    have ihr := ih fun nm sel hm => h nm sel (List.mem_cons_of_mem _ hm)
    simp only [summarize_buckets, h0, ihr]

/-- C10: a call entry with `percent > 100` satisfies none of the three
bucket predicates, and inserting it anywhere in a record's call list
changes nothing in the record's printed summary. -/
theorem claim_C10 (e : CallEntry) (h : 100 < e.percent) :
    (sel_single e = false ∧ sel_mid e = false ∧ sel_low e = false)
    ∧ ∀ (region : String) (qual kmer : ℚ) (l1 l2 : List CallEntry),
        summarize_counts ⟨region, qual, kmer, l1 ++ e :: l2⟩
          = summarize_counts ⟨region, qual, kmer, l1 ++ l2⟩ := by
  have hsel := selects_false_of_gt100 e h
  refine ⟨hsel, fun region qual kmer l1 l2 => ?_⟩
  have hfil : ∀ sel : CallEntry → Bool, sel e = false →
      (l1 ++ e :: l2).filter sel = (l1 ++ l2).filter sel := by
    intro sel hs
    simp [List.filter_append, List.filter_cons, hs]
  have hb : ∀ nm sel, (nm, sel) ∈ names.zip selects →
      summarize_bucket nm sel (l1 ++ e :: l2) = summarize_bucket nm sel (l1 ++ l2) := by
    intro nm sel hm
    have hse : sel e = false := by
      rw [names_zip_selects] at hm
      rcases List.mem_cons.mp hm with he | hm2
      · cases he; exact hsel.1
      rcases List.mem_cons.mp hm2 with he | hm3
      · cases he; exact hsel.2.1
      rcases List.mem_cons.mp hm3 with he | hm4
      · cases he; exact hsel.2.2
      · cases hm4
    have hbv : bucketVals sel (l1 ++ e :: l2) = bucketVals sel (l1 ++ l2) := by
      unfold bucketVals
      rw [hfil sel hse]
    simp only [summarize_bucket, hbv]
  simp only [summarize_counts]
  rw [summarize_buckets_congr _ _ _ hb]

/-- Witness for C10 with a `percent = 150` entry. -/
theorem claim_C10_witness :
    (100 : ℚ) < 150
    ∧ sel_single ⟨150, [("correct", 1)]⟩ = false
    ∧ summarize_counts ⟨"rt", 1, 1, [] ++ (⟨150, [("correct", 1)]⟩ : CallEntry) :: []⟩
        = summarize_counts ⟨"rt", 1, 1, [] ++ []⟩ := by
  have h := claim_C10 ⟨150, [("correct", 1)]⟩ (by norm_num)
  exact ⟨by norm_num, h.1.1, h.2 "rt" 1 1 [] []⟩

/-! ### The threaded record is never changed -/

lemma addItems_st_spec (items : List (String × ℚ)) (st : StatRecord × Vals) :
    (addItems_st st items).1 = st.1 ∧ (addItems_st st items).2 = addItems st.2 items := by
  induction items generalizing st with
  | nil => exact ⟨rfl, rfl⟩
  | cons kv rest ih =>
    obtain ⟨k, v⟩ := kv
    by_cases hk : k = "percent" <;> simp [addItems_st, addItems, hk, ih]

lemma accumCalls_st_spec (es : List CallEntry) (st : StatRecord × Vals) :
    (accumCalls_st st es).1 = st.1 ∧ (accumCalls_st st es).2 = accumCalls st.2 es := by
  induction es generalizing st with
  | nil => exact ⟨rfl, rfl⟩
  | cons e rest ih =>
    have ha := addItems_st_spec (entryItems e) st
    have ihr := ih (addItems_st st (entryItems e))
    refine ⟨?_, ?_⟩
    · simp [accumCalls_st, ihr.1, ha.1]
    · simp [accumCalls_st, accumCalls, ihr.2, ha.2]

lemma summarize_bucket_st_spec (nm : String) (sel : CallEntry → Bool)
    (info : StatRecord) :
    (summarize_bucket_st nm sel info).1 = info
    ∧ (summarize_bucket_st nm sel info).2 = summarize_bucket nm sel info.calls := by
  have h := accumCalls_st_spec (info.calls.filter sel) (info, [])
  constructor
  · simp only [summarize_bucket_st, bucketVals_st]
    exact h.1
  · simp only [summarize_bucket_st, bucketVals_st, summarize_bucket, bucketVals, h.2]

lemma summarize_buckets_st_spec (bs : List (String × (CallEntry → Bool)))
    (info : StatRecord) :
    (summarize_buckets_st info bs).1 = info
    ∧ (summarize_buckets_st info bs).2 = summarize_buckets info.calls bs := by
  induction bs generalizing info with
  | nil => exact ⟨rfl, rfl⟩
  | cons hd rest ih =>
    obtain ⟨nm0, sel0⟩ := hd
    have hsb := summarize_bucket_st_spec nm0 sel0 info
    have ihr := ih info
    cases hb : summarize_bucket nm0 sel0 info.calls with
    | none =>
      constructor <;>
        simp [summarize_buckets_st, summarize_buckets, hsb.1, hsb.2, hb]
    | some b =>
      constructor <;>
        simp [summarize_buckets_st, summarize_buckets, hsb.1, hsb.2, hb, ihr.1, ihr.2]

/-- C8: running `summarize_counts` with the record explicitly threaded
through every accumulation step returns the record unchanged — each
bucket's sums go into a fresh accumulator, and no call entry (nor the
record) is mutated — while producing exactly the output of the pure
version. -/
theorem claim_C8 (info : StatRecord) :
    (summarize_counts_st info).1 = info
    ∧ (summarize_counts_st info).2 = summarize_counts info := by
  have h := summarize_buckets_st_spec (names.zip selects) info
  constructor
  · simp only [summarize_counts_st]
    exact h.1
  · simp only [summarize_counts_st, summarize_counts, h.2]

/-! ### The printed region names -/

lemma regionLines_append (l1 l2 : List Line) :
    regionLines (l1 ++ l2) = regionLines l1 ++ regionLines l2 :=
  List.filterMap_append l1 l2 _

lemma regionLines_summarize_buckets (calls : List CallEntry)
    (bs : List (String × (CallEntry → Bool))) :
    regionLines (summarize_buckets calls bs).1 = [] := by
  induction bs with
  | nil => rfl
  | cons hd rest ih =>
    obtain ⟨nm0, sel0⟩ := hd
    cases hb : summarize_bucket nm0 sel0 calls with
    | none => simp [summarize_buckets, hb, regionLines]
    | some b => simp [summarize_buckets, hb, regionLines, renderBucket] at ih ⊢; exact ih

lemma regionLines_summarize_counts (info : StatRecord) :
    regionLines (summarize_counts info).1 = [] := by
  have h := regionLines_summarize_buckets info.calls (names.zip selects)
  simp [summarize_counts, regionLines] at h ⊢
  exact h

lemma regionLines_process_records (rs : List StatRecord) :
    regionLines (process_records rs).1 = [] := by
  induction rs with
  | nil => rfl
  | cons r rest ih =>
    cases hc : (summarize_counts r).2 with
    | true => simp [process_records, hc, regionLines_summarize_counts]
    | false =>
      simp [process_records, hc, regionLines_append, regionLines_summarize_counts, ih]

lemma regionLines_process_region (stats : List StatRecord) (reg : String) :
    regionLines (process_region stats reg).1 = [reg] := by
  have h := regionLines_process_records (region_stats stats reg)
  simp only [regionLines] at h
  simp [process_region, regionLines, h]

lemma regionLines_process_regions (stats : List StatRecord) (regs : List String)
    (h : (process_regions stats regs).2 = false) :
    regionLines (process_regions stats regs).1 = regs := by
  induction regs with
  | nil => rfl
  | cons reg rest ih =>
    cases hc : (process_region stats reg).2 with
    | true =>
      exfalso
      simp [process_regions, hc] at h
    | false =>
      have h2 : (process_regions stats rest).2 = false := by
        simpa [process_regions, hc] using h
      simp [process_regions, hc, regionLines_append, regionLines_process_region, ih h2]

/-- C9 (amended): on every run that finishes without the
division-by-zero crash, `main` prints exactly the two region header
lines `rt` then `gag`, in that fixed order — a region's header is
printed even when no record matches it — and the region list is the
list fixed inside the program, so no other label is ever reported.  (A
crash can cut the run short before `gag` is printed; see the
counterexample.) -/
theorem claim_C9 (stats : List StatRecord)
    (h : (main_summarize stats).2 = false) :
    regionLines (main_summarize stats).1 = ["rt", "gag"]
    ∧ regions = ["rt", "gag"] := by
  refine ⟨?_, rfl⟩
  exact regionLines_process_regions stats regions h

/-- Counterexample to C9 as stated: one `rt` record with no calls makes
the first record summary crash, so the `gag` header line is never
printed. -/
theorem claim_C9_cex :
    regionLines (main_summarize [⟨"rt", 1, 1, []⟩]).1 = ["rt"]
    ∧ ¬(regionLines (main_summarize [⟨"rt", 1, 1, []⟩]).1 = ["rt", "gag"]) := by
  have hmain : main_summarize [⟨"rt", 1, 1, []⟩]
      = ([Line.region "rt", Line.header 1 1], true) := by
    norm_num [main_summarize, process_regions, process_region, region_stats, regions,
      process_records, summarize_counts, summarize_buckets, summarize_bucket,
      names_zip_selects, bucketVals, accumCalls, valsTotal, valsGet, pydiv,
      List.filter_cons, sel_single]
  rw [hmain]
  constructor
  · rfl
  · intro hcon
    simp [regionLines] at hcon

/-- Witness for the amended C9: the empty input crashes nowhere and
prints exactly the two region headers. -/
theorem claim_C9_witness :
    (main_summarize ([] : List StatRecord)).2 = false
    ∧ regionLines (main_summarize ([] : List StatRecord)).1 = ["rt", "gag"]
    ∧ regions = ["rt", "gag"] := by
  have hf : (main_summarize ([] : List StatRecord)).2 = false := by
    norm_num [main_summarize, process_regions, process_region, region_stats, regions,
      process_records, List.filter_nil]
  have h := claim_C9 [] hf
  exact ⟨hf, h.1, h.2⟩

/-! ### Per-record output shape -/

/-- C7 (amended): whenever the three bucket computations of a record all
succeed (each bucket's `total` is nonzero), the record's output is
exactly one header line carrying `qual` and `kmer` followed by one line
per bucket in the fixed order `single`, `>=5%`, `<5%`; each bucket line
carries the bucket label — the exact-100% bucket is labelled
`"single"`, not `">=100%"` — then the `right` count, the right
percentage, the wrong count (`wrong + partial`), and the wrong
percentage, percentages being rounded to one decimal place by the
`%.1f` format. -/
theorem claim_C7 (info : StatRecord) (b0 b1 b2 : BucketLine)
    (h0 : summarize_bucket "single" sel_single info.calls = some b0)
    (h1 : summarize_bucket ">=5%" sel_mid info.calls = some b1)
    (h2 : summarize_bucket "<5%" sel_low info.calls = some b2) :
    summarize_counts info =
      ([Line.header info.qual info.kmer,
        renderBucket b0, renderBucket b1, renderBucket b2], false)
    ∧ b0.name = "single" ∧ b1.name = ">=5%" ∧ b2.name = "<5%"
    ∧ renderBucket b0 =
        Line.bucket b0.name b0.right (round1 b0.rightPct) b0.wrong (round1 b0.wrongPct) := by
  refine ⟨?_, summarize_bucket_name _ _ _ _ h0, summarize_bucket_name _ _ _ _ h1,
         summarize_bucket_name _ _ _ _ h2, rfl⟩
  simp [summarize_counts, summarize_buckets, names_zip_selects, h0, h1, h2]

/-- Counterexample to C7 as stated: on a record whose three buckets all
print, no output line is labelled `">=100%"`; the exact-100% bucket's
line is labelled `"single"` instead. -/
theorem claim_C7_cex :
    ((summarize_counts exRecFull).1.all fun l => !(lineIsBucketNamed ">=100%" l)) = true
    ∧ ((summarize_counts exRecFull).1.any fun l => lineIsBucketNamed "single" l) = true
    ∧ (summarize_counts exRecFull).2 = false := by
  have hmain : summarize_counts exRecFull =
      ([Line.header 20 31,
        Line.bucket "single" 10 (round1 100) 0 (round1 0),
        Line.bucket ">=5%" 3 (round1 75) 1 (round1 25),
        Line.bucket "<5%" 1 (round1 20) 4 (round1 80)], false) := by
    norm_num [summarize_counts, summarize_buckets, summarize_bucket, names_zip_selects,
      bucketVals, accumCalls, addItems, entryItems, valsAdd, valsGet, valsTotal, pydiv,
      sel_single, sel_mid, sel_low, exRecFull, exCallsFull, List.filter_cons,
      renderBucket]
  rw [hmain]
  refine ⟨by rfl, by rfl, rfl⟩

/-- Witness for the amended C7 on the concrete example record. -/
theorem claim_C7_witness :
    summarize_bucket "single" sel_single exRecFull.calls = some ⟨"single", 10, 100, 0, 0⟩
    ∧ summarize_bucket ">=5%" sel_mid exRecFull.calls = some ⟨">=5%", 3, 75, 1, 25⟩
    ∧ summarize_bucket "<5%" sel_low exRecFull.calls = some ⟨"<5%", 1, 20, 4, 80⟩
    ∧ summarize_counts exRecFull =
        ([Line.header 20 31,
          renderBucket ⟨"single", 10, 100, 0, 0⟩,
          renderBucket ⟨">=5%", 3, 75, 1, 25⟩,
          renderBucket ⟨"<5%", 1, 20, 4, 80⟩], false)
    ∧ (⟨"single", 10, 100, 0, 0⟩ : BucketLine).name = "single" := by
  have e0 : summarize_bucket "single" sel_single exRecFull.calls
      = some ⟨"single", 10, 100, 0, 0⟩ := by
    norm_num [summarize_bucket, bucketVals, accumCalls, addItems, entryItems, valsAdd,
      valsGet, valsTotal, pydiv, sel_single, exRecFull, exCallsFull, List.filter_cons]
  have e1 : summarize_bucket ">=5%" sel_mid exRecFull.calls
      = some ⟨">=5%", 3, 75, 1, 25⟩ := by
    norm_num [summarize_bucket, bucketVals, accumCalls, addItems, entryItems, valsAdd,
      valsGet, valsTotal, pydiv, sel_mid, exRecFull, exCallsFull, List.filter_cons]
  have e2 : summarize_bucket "<5%" sel_low exRecFull.calls
      = some ⟨"<5%", 1, 20, 4, 80⟩ := by
    norm_num [summarize_bucket, bucketVals, accumCalls, addItems, entryItems, valsAdd,
      valsGet, valsTotal, pydiv, sel_low, exRecFull, exCallsFull, List.filter_cons]
  have h := claim_C7 exRecFull _ _ _ e0 e1 e2
  exact ⟨e0, e1, e2, h.1, h.2.1⟩
